import Mathlib

/-!
Shallow embedding of `src/json-to-csv-nft.py`: a converter from NFT metadata
JSON documents to CSV rows.  JSON values are modelled by the inductive `JVal`
(non-integral JSON numbers are not modelled; no claim depends on them), JSON
objects by association lists in insertion order, which is also how Python
dicts behave.  Each Lean definition mirrors the Python function of the same
name; characterisation theorems for the frozen claims follow the definitions.
-/

namespace JsonToCsvNft

/-- A parsed JSON value, as produced by `json.loads`.  Objects keep their
key insertion order, like Python dicts. -/
inductive JVal where
  | jnull : JVal
  | jbool : Bool → JVal
  | jint : Int → JVal
  | jstr : String → JVal
  | jarr : List JVal → JVal
  | jobj : List (String × JVal) → JVal

/-- Decimal digits of a natural number, most significant first; the fuel
argument (any bound on the digit count, e.g. the number itself plus one)
keeps the recursion structural. -/
def natDigitsAux (fuel : Nat) (n : Nat) : List Char :=
  match fuel with
  | 0 => []
  | fuel + 1 =>
    if n < 10 then [Char.ofNat (48 + n)]
    else natDigitsAux fuel (n / 10) ++ [Char.ofNat (48 + n % 10)]

/-- Python `str` of a nonnegative integer. -/
def natToString (n : Nat) : String :=
  String.mk (natDigitsAux (n + 1) n)

/-- Python `str` of an integer: decimal digits, minus sign for negatives. -/
def intToString (n : Int) : String :=
  match n with
  | .ofNat m => natToString m
  | .negSucc m => "-" ++ natToString (m + 1)

/-- Python `s.startswith(pre)`. -/
def strStartsWith (s pre : String) : Bool :=
  pre.data.isPrefixOf s.data

/-- Drop the first `n` characters of a string. -/
def strDrop (s : String) (n : Nat) : String :=
  String.mk (s.data.drop n)

/-- Replace every occurrence of a nonempty pattern, scanning left to right
without overlap; the counter skips the remaining characters of a match that
was just replaced. -/
def replAux (pat sub : List Char) : Nat → List Char → List Char
  | _ + 1, [] => []
  | skip + 1, _ :: rest => replAux pat sub skip rest
  | 0, [] => []
  | 0, c :: rest =>
    if pat.isPrefixOf (c :: rest) then
      sub ++ replAux pat sub (pat.length - 1) rest
    else c :: replAux pat sub 0 rest

/-- Python `s.replace(pat, sub)` for a nonempty pattern (the empty-pattern
edge case is never exercised: the only pattern used is `ipfs://`). -/
def pyReplace (s pat sub : String) : String :=
  if pat = "" then s
  else String.mk (replAux pat.data sub.data 0 s.data)

/-- Split a character list on `/`, like Python `s.split("/")`. -/
def splitSlash : List Char → List (List Char)
  | [] => [[]]
  | c :: rest =>
    let r := splitSlash rest
    if c == '/' then [] :: r
    else
      match r with
      | g :: gs => (c :: g) :: gs
      | [] => [[c]]

/-- Python truthiness of a JSON-decoded value (`bool(v)`). -/
def pyTruthy : JVal → Bool
  | .jnull => false
  | .jbool b => b
  | .jint n => n != 0
  | .jstr s => s != ""
  | .jarr l => !l.isEmpty
  | .jobj m => !m.isEmpty

/-- A single-quote character, used by Python container reprs. -/
def quoteChar : String := String.singleton (Char.ofNat 39)

mutual

/-- Python `repr` of a JSON-decoded value (string escaping inside reprs is
not modelled; it is never exercised by the converter on sensible data). -/
def pyRepr : JVal → String
  | .jnull => "None"
  | .jbool true => "True"
  | .jbool false => "False"
  | .jint n => intToString n
  | .jstr s => quoteChar ++ s ++ quoteChar
  | .jarr l => "[" ++ pyReprList l ++ "]"
  | .jobj m => "\x7b" ++ pyReprObj m ++ "\x7d"

/-- Comma-separated reprs of list elements. -/
def pyReprList : List JVal → String
  | [] => ""
  | [x] => pyRepr x
  | x :: xs => pyRepr x ++ ", " ++ pyReprList xs

/-- Comma-separated `key: value` reprs of dict entries. -/
def pyReprObj : List (String × JVal) → String
  | [] => ""
  | [(k, v)] => quoteChar ++ k ++ quoteChar ++ ": " ++ pyRepr v
  | (k, v) :: xs => quoteChar ++ k ++ quoteChar ++ ": " ++ pyRepr v ++ ", " ++ pyReprObj xs

end

/-- Python `str` of a JSON-decoded value. -/
def pyStr : JVal → String
  | .jstr s => s
  | v => pyRepr v

/-- Python `int(s)` on a string: optional surrounding ASCII whitespace, an
optional sign, then one or more decimal digits (digit-group underscores are
not modelled).  Returns `none` when the parse fails. -/
def pyIntOfString (s : String) : Option Int :=
  let cs := (s.data.dropWhile Char.isWhitespace).reverse.dropWhile Char.isWhitespace |>.reverse
  let (neg, digits) :=
    match cs with
    | '-' :: rest => (true, rest)
    | '+' :: rest => (false, rest)
    | rest => (false, rest)
  if digits ≠ [] ∧ digits.all Char.isDigit then
    let n : Nat := digits.foldl (fun acc c => 10 * acc + (c.toNat - 48)) 0
    some (if neg then -(n : Int) else (n : Int))
  else
    none

/-- Python `int(str(v))` for a JSON-decoded value, as `Option`. -/
def pyIntOfVal (v : JVal) : Option Int :=
  pyIntOfString (pyStr v)

/-- Python `d[k]` / `d.get(k)` on a JSON object (keys are unique after
`json.loads`, so first-match lookup is exact). -/
def getKey (d : List (String × JVal)) (k : String) : Option JVal :=
  (d.find? (fun p => p.1 == k)).map (fun p => p.2)

/-- Key priority used by `get_token_id_from_json`. -/
def tokenIdKeys : List String := ["token_id", "edition", "tokenId", "id"]

/-- The key loop of `get_token_id_from_json`: try each key in order; a key
that is present but fails `int(str(.))` is passed over (the `except: pass`). -/
def tokenIdLoop (d : List (String × JVal)) : List String → Option Int
  | [] => none
  | k :: ks =>
    match getKey d k with
    | some v =>
      match pyIntOfVal v with
      | some n => some n
      | none => tokenIdLoop d ks
    | none => tokenIdLoop d ks

/-- `get_token_id_from_json(d)` (source lines 54-61). -/
def get_token_id_from_json (d : List (String × JVal)) : Option Int :=
  tokenIdLoop d tokenIdKeys

/-- `guess_token_id_from_filename(p)` (source lines 50-52): the first run of
decimal digits in the filename stem, via `re.search(r'(\d+)', p.stem)`. -/
def guess_token_id_from_filename (stem : String) : Option Int :=
  let run := (stem.data.dropWhile (fun c => !c.isDigit)).takeWhile Char.isDigit
  if run.isEmpty then none
  else some ((run.foldl (fun acc c => 10 * acc + (c.toNat - 48)) 0 : Nat) : Int)

/-- Python `s.lstrip("/")`. -/
def lstripSlash (s : String) : String :=
  String.mk (s.data.dropWhile (fun c => c == '/'))

/-- Python `s.rstrip("/")`. -/
def rstripSlash (s : String) : String :=
  String.mk ((s.data.reverse.dropWhile (fun c => c == '/')).reverse)

/-- `normalize_image(img, prefix)` (source lines 63-72).  The gateway
argument is `none` when `--image-prefix` is not given; Python additionally
treats an empty string as falsy in `if prefix and ...`. -/
def normalize_image (img : JVal) (gw : Option String) : String :=
  match img with
  | .jstr s =>
    match gw with
    | some p =>
      if p != "" && (strStartsWith s "ipfs://" || !strStartsWith s "http") then
        let ipfsPath := pyReplace s "ipfs://" ""
        let ipfsPath :=
          if strStartsWith ipfsPath "ipfs/" then strDrop ipfsPath 5 else ipfsPath
        rstripSlash p ++ "/" ++ lstripSlash ipfsPath
      else s
    | none => s
  | _ => ""

/-- Characters allowed in a URL scheme after the leading letter
(`urllib.parse`: letters, digits, `+`, `-`, `.`). -/
def schemeChar (c : Char) : Bool :=
  c.isAlphanum || c == '+' || c == '-' || c == '.'

/-- Split off a URL scheme, as `urllib.parse.urlparse` does: the text before
the first `:` counts as the scheme when it is nonempty, starts with a letter
and uses only scheme characters.  Returns the scheme and the remainder after
the colon. -/
def parseScheme (cs : List Char) : Option (List Char × List Char) :=
  let pre := cs.takeWhile (fun c => c ≠ ':')
  if pre.length < cs.length ∧ pre ≠ [] ∧
      (pre.headD ' ').isAlpha ∧ pre.all schemeChar then
    some (pre, cs.drop (pre.length + 1))
  else none

/-- The `path` component of the remainder after the scheme, as `urlparse`
computes it: a leading `//` introduces a netloc running to the first of
`/`, `?`, `#`; the path then runs to the first `?` or `#`. -/
def urlPathOf (rest : List Char) : List Char :=
  let afterNetloc :=
    match rest with
    | '/' :: '/' :: tl => tl.dropWhile (fun c => c ≠ '/' ∧ c ≠ '?' ∧ c ≠ '#')
    | _ => rest
  afterNetloc.takeWhile (fun c => c ≠ '?' ∧ c ≠ '#')

/-- Python `pathlib.Path(s).name`: the final path component, after dropping
empty and single-dot components. -/
def pyPathName (s : String) : String :=
  let comps := (splitSlash s.data).map String.mk
  let comps := comps.filter (fun c => c ≠ "" ∧ c ≠ ".")
  comps.getLastD ""

/-- `basename_from_url_or_path(s)` (source lines 77-87): basename of a URL
(when it parses with scheme and path) or of a plain path; empty string for
non-string or empty input. -/
def basename_from_url_or_path (v : JVal) : String :=
  match v with
  | .jstr s =>
    if s = "" then ""
    else
      match parseScheme s.data with
      | some (_, rest) =>
        let p := urlPathOf rest
        if p ≠ [] then pyPathName (String.mk p) else pyPathName s
      | none => pyPathName s
  | _ => ""

/-- Index of the last dot in a character list. -/
def lastDotIdx : List Char → Option Nat
  | [] => none
  | c :: rest =>
    match lastDotIdx rest with
    | some i => some (i + 1)
    | none => if c == '.' then some 0 else none

/-- `ext_from_name(name, default)` (source lines 89-91), following
`pathlib`'s suffix rule: the part from the last dot when that dot is neither
the first nor the last character, else the default. -/
def ext_from_name (name : String) (dflt : String) : String :=
  let cs := name.data
  match lastDotIdx cs with
  | some i => if 0 < i ∧ i + 1 < cs.length then String.mk (cs.drop i) else dflt
  | none => dflt

/-- One segment of a filename template: literal text, or a `\x7bvar\x7d`
field naming a substitution variable. -/
inductive Tpl where
  | lit : String → Tpl
  | var : String → Tpl

/-- A filename template, already split into segments. -/
abbrev Template := List Tpl

/-- The variable names a template references. -/
def tplVars (t : Template) : List String :=
  t.filterMap fun s => match s with | .var v => some v | .lit _ => none

/-- The variable names `render_filename_col` supports. -/
def allowedVars : List String :=
  ["token_id", "stem", "image", "image_name", "image_ext"]

/-- The string substituted for one supported variable name (the keyword
arguments of the `template.format(...)` call, lines 98-104). -/
def substVar (tid : Option Int) (stem : String) (imageRaw : JVal) : String → String
  | "token_id" => match tid with | none => "" | some n => intToString n
  | "stem" => stem
  | "image" => if pyTruthy imageRaw then pyStr imageRaw else ""
  | "image_name" => basename_from_url_or_path imageRaw
  | "image_ext" => ext_from_name (basename_from_url_or_path imageRaw) ".png"
  | _ => ""

/-- `render_filename_col(template, token_id, stem, image_raw)` (source lines
93-104).  `none` models the uncaught `KeyError` that `str.format` raises for
a variable name outside the supported set. -/
def render_filename_col (tmpl : Template) (tid : Option Int) (stem : String)
    (imageRaw : JVal) : Option String :=
  tmpl.foldl
    (fun acc seg =>
      match acc, seg with
      | some s, .lit t => some (s ++ t)
      | some s, .var v =>
        if allowedVars.contains v then some (s ++ substVar tid stem imageRaw v)
        else none
      | none, _ => none)
    (some "")

/-- Python dict assignment `m[k] = v`: update in place when the key exists
(its position is kept), else append the new key at the end. -/
def insertPy (m : List (String × JVal)) (k : String) (v : JVal) :
    List (String × JVal) :=
  if m.any (fun p => p.1 == k) then
    m.map (fun p => if p.1 == k then (k, v) else p)
  else m ++ [(k, v)]

/-- The name resolved for one attribute object:
`a.get("trait_type") or a.get("trait") or a.get("type")` followed by
`if t:` — the first truthy value among the three keys, stringified. -/
def resolveTraitName (o : List (String × JVal)) : Option String :=
  ([getKey o "trait_type", getKey o "trait", getKey o "type"].findSome?
      fun v? => match v? with
        | some v => if pyTruthy v then some v else none
        | none => none).map pyStr

/-- One iteration of the attribute loop (lines 132-138): skip non-objects,
skip entries with no truthy name, else `trait_map[str(t)] = a.get("value","")`. -/
def traitStep (m : List (String × JVal)) (a : JVal) : List (String × JVal) :=
  match a with
  | .jobj o =>
    match resolveTraitName o with
    | some t => insertPy m t ((getKey o "value").getD (.jstr ""))
    | none => m
  | _ => m

/-- The trait maps built at lines 129-138 and 171-180: fold the attribute
sequence when it is a list, else an empty mapping. -/
def extractTraits (atts : JVal) : List (String × JVal) :=
  match atts with
  | .jarr l => l.foldl traitStep []
  | _ => []

/-- A Normalized Item, the dict built by `parse_json_file` / `normalize_one`.
Base fields keep their raw JSON values (the source stores them without
coercion); `image` is a genuine string because `normalize_image` always
returns one. -/
structure Item where
  token_id : Option Int
  name : JVal
  description : JVal
  image : String
  image_raw : JVal
  external_url : JVal
  animation_url : JVal
  background_color : JVal
  youtube_url : JVal
  traits : List (String × JVal)
  stem : String

/-- The `--id-from` choices; `none` in the driver means autodetect. -/
inductive IdFrom where
  | filename : IdFrom
  | json : IdFrom

/-- The id chosen at lines 113-118 from the filename-derived and
json-derived candidates. -/
def resolveTokenId (idFrom : Option IdFrom) (tidFn tidJs : Option Int) :
    Option Int :=
  match idFrom with
  | some .filename => tidFn
  | some .json => tidJs
  | none => match tidJs with | some n => some n | none => tidFn

/-- Shared field extraction of `parse_json_file` / `normalize_one`
(lines 120-127 / 162-169), given the already-resolved id and stem. -/
def mkItem (o : List (String × JVal)) (tid : Option Int) (stem : String)
    (gw : Option String) : Item :=
  let imageRaw := (getKey o "image").getD (.jstr "")
  { token_id := tid
    name := (getKey o "name").getD (.jstr "")
    description := (getKey o "description").getD (.jstr "")
    image := normalize_image imageRaw gw
    image_raw := imageRaw
    external_url := (getKey o "external_url").getD (.jstr "")
    animation_url := (getKey o "animation_url").getD (.jstr "")
    background_color := (getKey o "background_color").getD (.jstr "")
    youtube_url := (getKey o "youtube_url").getD (.jstr "")
    traits := extractTraits ((getKey o "attributes").getD (.jarr []))
    stem := stem }

/-- `parse_json_file(p, id_from, image_prefix)` (source lines 108-152) on an
already-parsed document.  A non-object document makes the field accesses
raise (caught by the driver), modelled as `none`. -/
def parse_json_file (stem : String) (d : JVal) (idFrom : Option IdFrom)
    (gw : Option String) : Option Item :=
  match d with
  | .jobj o =>
    let tidFn := guess_token_id_from_filename stem
    let tidJs := get_token_id_from_json o
    some (mkItem o (resolveTokenId idFrom tidFn tidJs) stem gw)
  | _ => none

/-- `normalize_one(obj, key_for_stem)` (source lines 160-196); the stem
falls back to the id or `"item"` when `key_for_stem` is falsy. -/
def normalize_one (o : List (String × JVal)) (keyForStem : String)
    (gw : Option String) : Item :=
  let tid := get_token_id_from_json o
  let stem :=
    if keyForStem ≠ "" then keyForStem
    else match tid with | some n => intToString n | none => "item"
  mkItem o tid stem gw

/-- The dict-mode key injection (lines 205-210): when the object lacks a
`token_id` and the dict key parses as an integer, a `token_id` entry is
added (a fresh key appends at the end of the dict). -/
def dictKeyInject (k : String) (o : List (String × JVal)) :
    List (String × JVal) :=
  if o.any (fun p => p.1 == "token_id") then o
  else
    match pyIntOfString k with
    | some n => o ++ [("token_id", .jint n)]
    | none => o

/-- The list branch of `load_metadata_file` (lines 198-201): 1-based
enumeration of the original list, keeping only dict entries. -/
def loadList (gw : Option String) (idx : Nat) : List JVal → List Item
  | [] => []
  | v :: rest =>
    match v with
    | .jobj o => normalize_one o (natToString idx) gw :: loadList gw (idx + 1) rest
    | _ => loadList gw (idx + 1) rest

/-- The dict branch of `load_metadata_file` (lines 202-211). -/
def loadDict (gw : Option String) : List (String × JVal) → List Item
  | [] => []
  | (k, v) :: rest =>
    match v with
    | .jobj o => normalize_one (dictKeyInject k o) k gw :: loadDict gw rest
    | _ => loadDict gw rest

/-- `load_metadata_file(path, image_prefix)` (source lines 156-215).  The
input is `none` when `json.loads` fails; that failure and a non-list,
non-dict top level are fatal (`Except.error`). -/
def load_metadata_file (raw : Option JVal) (gw : Option String) :
    Except String (List Item) :=
  match raw with
  | none => .error "json parse error"
  | some (.jarr l) => .ok (loadList gw 1 l)
  | some (.jobj kvs) => .ok (loadDict gw kvs)
  | some _ => .error "Unsupported metadata.json structure (must be list or dict)."

/-- The folder-mode ingestion loop (source lines 256-263): each file is a
stem paired with its parse result (`none` when `json.loads` raised).  A
failure of `parse_json_file` is caught by the same handler: the item is
skipped and the warning count grows; siblings are unaffected. -/
def folderIngest (idFrom : Option IdFrom) (gw : Option String) :
    List (String × Option JVal) → List (String × Item) × Nat
  | [] => ([], 0)
  | (nm, doc) :: rest =>
    let r := folderIngest idFrom gw rest
    match doc.bind (fun d => parse_json_file nm d idFrom gw) with
    | some it => ((nm, it) :: r.1, r.2)
    | none => (r.1, r.2 + 1)

/-- One step of the trait-union scan (lines 270-273): state is the ordered
output and the membership set (modelled as a list queried by `contains`). -/
def unionStep (st : List String × List String) (t : String) :
    List String × List String :=
  if st.2.contains t then st else (st.1 ++ [t], t :: st.2)

/-- The inner loop over one item's trait names. -/
def unionFold (st : List String × List String) (ks : List String) :
    List String × List String :=
  ks.foldl unionStep st

/-- The trait names of one item, in the item's own insertion order. -/
def traitKeys (it : Item) : List String :=
  it.traits.map (fun p => p.1)

/-- The Trait Schema Unifier (source lines 266-273): the ordered
de-duplicated union of all trait names across the batch. -/
def all_traits_order (items : List Item) : List String :=
  (items.foldl (fun st it => unionFold st (traitKeys it)) ([], [])).1

/-- The eight default base columns (source line 275). -/
def default_base : List String :=
  ["token_id", "name", "description", "image", "external_url",
   "animation_url", "background_color", "youtube_url"]

/-- Configuration surface relevant to header and row construction. -/
structure Config where
  onlyTraits : Bool
  fields : Option (List String)
  filenameCol : Option String
  tmpl : Template
  noHeader : Bool
  doSort : Bool
  gw : Option String

/-- `base_cols` (source lines 277-283); `--fields` given as an empty list is
falsy in Python and falls back to the default. -/
def base_cols (cfg : Config) : List String :=
  if cfg.onlyTraits then []
  else
    match cfg.fields with
    | some fs =>
      if fs.isEmpty then default_base
      else fs.filter (fun c => default_base.contains c)
    | none => default_base

/-- `filename_col_name` (source line 285); an empty string is falsy. -/
def filename_col_name (cfg : Config) : Option String :=
  match cfg.filenameCol with
  | some s => if s = "" then none else some s
  | none => none

/-- The Unified Header (source line 286). -/
def header (cfg : Config) (items : List Item) : List String :=
  base_cols cfg ++ (filename_col_name cfg).toList ++ all_traits_order items

/-- `it.get(c, "")` for the base columns: every allowed base column is a key
of the item dict; others would default to the empty string. -/
def itemField (it : Item) (c : String) : JVal :=
  if c = "token_id" then
    match it.token_id with | some n => .jint n | none => .jnull
  else if c = "name" then it.name
  else if c = "description" then it.description
  else if c = "image" then .jstr it.image
  else if c = "external_url" then it.external_url
  else if c = "animation_url" then it.animation_url
  else if c = "background_color" then it.background_color
  else if c = "youtube_url" then it.youtube_url
  else .jstr ""

/-- How `csv.writer` renders one cell: `None` becomes the empty string,
everything else goes through `str`. -/
def cellStr : JVal → String
  | .jnull => ""
  | v => pyStr v

/-- `it["traits"].get(t, "")` (lines 300-301 / 345-346). -/
def traitCell (it : Item) (t : String) : String :=
  cellStr (((it.traits.find? (fun p => p.1 == t)).map (fun p => p.2)).getD (.jstr ""))

/-- One data row (lines 297-302 / 341-347): base cells, then the rendered
filename cell when configured, then one cell per unified trait column.
`none` models the run-aborting template error. -/
def projectRow (cfg : Config) (ord : List String) (it : Item) :
    Option (List String) :=
  let base := (base_cols cfg).map (fun c => cellStr (itemField it c))
  let tr := ord.map (fun t => traitCell it t)
  match filename_col_name cfg with
  | some _ =>
    (render_filename_col cfg.tmpl it.token_id it.stem it.image_raw).map
      (fun fn => base ++ ([fn] ++ tr))
  | none => some (base ++ tr)

/-- The row loop of the aggregated writer: all rows, or failure as soon as
one row fails. -/
def projectRows (cfg : Config) (ord : List String) :
    List Item → Option (List (List String))
  | [] => some []
  | it :: rest =>
    match projectRow cfg ord it, projectRows cfg ord rest with
    | some r, some rs => some (r :: rs)
    | _, _ => none

/-- One per-item CSV (lines 293-302 / 309-318): optional header row plus the
single data row. -/
def per_file_csv (cfg : Config) (ord : List String) (hdr : List String)
    (it : Item) : Option (List (List String)) :=
  (projectRow cfg ord it).map
    (fun r => (if cfg.noHeader then [] else [hdr]) ++ [r])

/-- The sort key of line 335: `(x["token_id"] is None, x["token_id"])`,
encoded as a pair ordered lexicographically (both `None`s compare equal, so
the tuple comparison never reaches the ids there). -/
def sortKey (it : Item) : Nat × Int :=
  (if it.token_id.isNone then 1 else 0, it.token_id.getD 0)

/-- Lexicographic order on the sort keys. -/
def lexLe (p q : Nat × Int) : Prop :=
  p.1 < q.1 ∨ (p.1 = q.1 ∧ p.2 ≤ q.2)

instance : DecidableRel lexLe := fun p q => by
  unfold lexLe; infer_instance

/-- The item order used by the aggregated writer. -/
def keyLe (a b : Item) : Prop :=
  lexLe (sortKey a) (sortKey b)

instance : DecidableRel keyLe := fun a b => by
  unfold keyLe; infer_instance

instance : IsTotal Item keyLe where
  total a b := by
    unfold keyLe lexLe; omega

instance : IsTrans Item keyLe where
  trans a b c := by
    unfold keyLe lexLe; omega

/-- Lines 332-335: the aggregated item order — Python `list.sort` is stable,
modelled by insertion sort with a non-strict comparison. -/
def sortAgg (doSort : Bool) (items : List Item) : List Item :=
  if doSort then items.insertionSort keyLe else items

/-- The aggregated CSV (lines 337-347): optional header row, then one row
per item in sorted (or ingestion) order. -/
def aggregated_csv (cfg : Config) (ord : List String) (hdr : List String)
    (items : List Item) : Option (List (List String)) :=
  (projectRows cfg ord (sortAgg cfg.doSort items)).map
    (fun rs => (if cfg.noHeader then [] else [hdr]) ++ rs)

/-- Metadata-mode run up to the aggregated CSV: parse, load, unify, write.
A parse failure or unsupported top level aborts with no CSV produced. -/
def run_metadata_mode (raw : Option JVal) (cfg : Config) :
    Except String (List (List String)) :=
  match load_metadata_file raw cfg.gw with
  | .error e => .error e
  | .ok items =>
    let ord := all_traits_order items
    match aggregated_csv cfg ord (header cfg items) items with
    | some csv => .ok csv
    | none => .error "template error"

/-! ### Declarative characterisations used by the claim theorems -/

/-- First-seen de-duplication continuing from an accumulator. -/
def dedupFrom (acc : List String) (l : List String) : List String :=
  l.foldl (fun a t => if t ∈ a then a else a ++ [t]) acc

/-- First-seen de-duplication: append each name iff not seen before. -/
def dedupF (l : List String) : List String := dedupFrom [] l

/-- The (name, value) pair one attribute entry contributes, if any: an
object with a truthy name, paired with its value (default empty string). -/
def entryPair (a : JVal) : Option (String × JVal) :=
  match a with
  | .jobj o =>
    (resolveTraitName o).map (fun t => (t, (getKey o "value").getD (.jstr "")))
  | _ => none

/-- The (name, value) pairs the attribute loop actually processes. -/
def resolvedPairs (l : List JVal) : List (String × JVal) :=
  l.filterMap entryPair

/-- Fold a pair list into a dict by repeated Python assignment. -/
def foldInsert (m : List (String × JVal)) (ps : List (String × JVal)) :
    List (String × JVal) :=
  ps.foldl (fun acc p => insertPy acc p.1 p.2) m

/-- The dict built from a pair list by repeated Python assignment. -/
def buildDict (ps : List (String × JVal)) : List (String × JVal) :=
  foldInsert [] ps

/-- The value of the last pair with a given key, if any. -/
def lastVal (ps : List (String × JVal)) (k : String) : Option JVal :=
  (ps.reverse.find? (fun p => p.1 == k)).map (fun p => p.2)

theorem beq_false_of_ne {a b : String} (h : a ≠ b) : (a == b) = false :=
  beq_eq_false_iff_ne.mpr h

theorem bool_ne_true {b : Bool} (h : b = false) : ¬ b = true := by
  rw [h]
  exact Bool.false_ne_true

theorem map_fst_update (m : List (String × JVal)) (k : String) (v : JVal) :
    (m.map (fun q => if q.1 == k then (k, v) else q)).map Prod.fst
      = m.map Prod.fst := by
  induction m with
  | nil => rfl
  | cons q rest ih =>
    rw [List.map_cons, List.map_cons, List.map_cons]
    by_cases hq : (q.1 == k) = true
    · rw [if_pos hq]
      show k :: _ = q.1 :: _
      rw [eq_of_beq hq, ih]
    · rw [if_neg hq]
      show q.1 :: _ = q.1 :: _
      rw [ih]

theorem any_key_iff (m : List (String × JVal)) (k : String) :
    m.any (fun p => p.1 == k) = true ↔ k ∈ m.map Prod.fst := by
  rw [List.any_eq_true]
  constructor
  · rintro ⟨p, hp, he⟩
    exact List.mem_map.mpr ⟨p, hp, eq_of_beq he⟩
  · intro hm
    obtain ⟨p, hp, he⟩ := List.mem_map.mp hm
    exact ⟨p, hp, beq_iff_eq.mpr he⟩

theorem insertPy_map_fst (m : List (String × JVal)) (k : String) (v : JVal) :
    (insertPy m k v).map Prod.fst =
      if k ∈ m.map Prod.fst then m.map Prod.fst
      else m.map Prod.fst ++ [k] := by
  unfold insertPy
  by_cases h : m.any (fun p => p.1 == k) = true
  · rw [if_pos h, if_pos ((any_key_iff m k).mp h), map_fst_update]
  · rw [if_neg h, if_neg (fun hm => h ((any_key_iff m k).mpr hm))]
    rw [List.map_append]
    rfl

theorem insertPy_cons_ne (p : String × JVal) (rest : List (String × JVal))
    (k : String) (v : JVal) (h : (p.1 == k) = false) :
    insertPy (p :: rest) k v = p :: insertPy rest k v := by
  unfold insertPy
  have hany : ((p :: rest).any fun q => q.1 == k)
      = (rest.any fun q => q.1 == k) := by
    rw [List.any_cons, h, Bool.false_or]
  rw [hany]
  by_cases h2 : (rest.any fun q => q.1 == k) = true
  · rw [if_pos h2, if_pos h2, List.map_cons,
      if_neg (by rw [h]; exact Bool.false_ne_true)]
  · rw [if_neg h2, if_neg h2, List.cons_append]

theorem insertPy_cons_eq (p : String × JVal) (rest : List (String × JVal))
    (k : String) (v : JVal) (h : (p.1 == k) = true) :
    insertPy (p :: rest) k v
      = (k, v) :: rest.map (fun q => if q.1 == k then (k, v) else q) := by
  unfold insertPy
  have hany : ((p :: rest).any fun q => q.1 == k) = true := by
    rw [List.any_cons, h, Bool.true_or]
  rw [if_pos hany, List.map_cons, if_pos h]

theorem getKey_cons (p : String × JVal) (m : List (String × JVal))
    (k : String) :
    getKey (p :: m) k = if p.1 == k then some p.2 else getKey m k := by
  unfold getKey
  rw [List.find?_cons]
  by_cases h : (p.1 == k) = true
  · rw [h]
    rfl
  · rw [Bool.of_not_eq_true h]
    rfl

theorem getKey_update_ne (m : List (String × JVal)) (k : String) (v : JVal)
    (k' : String) (h : k' ≠ k) :
    getKey (m.map (fun q => if q.1 == k then (k, v) else q)) k'
      = getKey m k' := by
  induction m with
  | nil => rfl
  | cons q rest ih =>
    rw [List.map_cons, getKey_cons, getKey_cons]
    by_cases hq : (q.1 == k) = true
    · rw [if_pos hq]
      have h1 : (((k, v) : String × JVal).1 == k') = false :=
        beq_false_of_ne (fun e => h e.symm)
      have h2 : (q.1 == k') = false := by
        rw [eq_of_beq hq]; exact beq_false_of_ne (fun e => h e.symm)
      rw [if_neg (bool_ne_true h1), if_neg (bool_ne_true h2), ih]
    · rw [if_neg hq, ih]

theorem getKey_insertPy (m : List (String × JVal)) (k : String) (v : JVal)
    (k' : String) :
    getKey (insertPy m k v) k' = if k' = k then some v else getKey m k' := by
  induction m with
  | nil =>
    show getKey [(k, v)] k' = _
    rw [getKey_cons]
    by_cases h : k' = k
    · rw [if_pos h, if_pos (beq_iff_eq.mpr h.symm)]
    · rw [if_neg h,
        if_neg (bool_ne_true (beq_false_of_ne (fun e => h e.symm)))]
  | cons p rest ih =>
    by_cases hp : (p.1 == k) = true
    · rw [insertPy_cons_eq p rest k v hp, getKey_cons]
      by_cases hk : k' = k
      · rw [if_pos hk, if_pos (beq_iff_eq.mpr hk.symm)]
      · have h1 : (((k, v) : String × JVal).1 == k') = false :=
          beq_false_of_ne (fun e => hk e.symm)
        have h2 : (p.1 == k') = false := by
          rw [eq_of_beq hp]; exact beq_false_of_ne (fun e => hk e.symm)
        rw [if_neg (bool_ne_true h1), if_neg hk,
          getKey_update_ne rest k v k' hk, getKey_cons,
          if_neg (bool_ne_true h2)]
    · rw [insertPy_cons_ne p rest k v (Bool.of_not_eq_true hp), getKey_cons,
        getKey_cons, ih]
      by_cases hk : k' = k
      · subst hk
        rw [if_pos rfl, if_pos rfl, if_neg hp]
      · simp only [if_neg hk]

theorem dedupFrom_cons (acc : List String) (t : String) (l : List String) :
    dedupFrom acc (t :: l) = dedupFrom (if t ∈ acc then acc else acc ++ [t]) l :=
  rfl

theorem foldInsert_cons (m : List (String × JVal)) (p : String × JVal)
    (ps : List (String × JVal)) :
    foldInsert m (p :: ps) = foldInsert (insertPy m p.1 p.2) ps :=
  rfl

theorem foldInsert_map_fst (ps : List (String × JVal)) :
    ∀ m, (foldInsert m ps).map Prod.fst
      = dedupFrom (m.map Prod.fst) (ps.map Prod.fst) := by
  induction ps with
  | nil => intro m; rfl
  | cons p rest ih =>
    intro m
    rw [foldInsert_cons, List.map_cons, dedupFrom_cons, ih,
      insertPy_map_fst]

theorem find?_append_or {α : Type} (l1 l2 : List α) (p : α → Bool) :
    (l1 ++ l2).find? p
      = match l1.find? p with
        | some x => some x
        | none => l2.find? p := by
  induction l1 with
  | nil => rfl
  | cons a rest ih =>
    rw [List.cons_append, List.find?_cons, List.find?_cons]
    by_cases h : p a = true
    · rw [h]
    · rw [Bool.of_not_eq_true h, ih]

theorem lastVal_cons (p : String × JVal) (ps : List (String × JVal))
    (k : String) :
    lastVal (p :: ps) k
      = match lastVal ps k with
        | some v => some v
        | none => if p.1 == k then some p.2 else none := by
  unfold lastVal
  rw [List.reverse_cons, find?_append_or]
  cases h : ps.reverse.find? (fun q => q.1 == k) with
  | some x => rfl
  | none =>
    show Option.map _ (List.find? _ [p]) = _
    rw [List.find?_cons]
    by_cases hpk : (p.1 == k) = true
    · rw [hpk]
      rfl
    · rw [Bool.of_not_eq_true hpk]
      rfl

theorem foldInsert_getKey (ps : List (String × JVal)) (k : String) :
    ∀ m, getKey (foldInsert m ps) k
      = match lastVal ps k with
        | some v => some v
        | none => getKey m k := by
  induction ps with
  | nil => intro m; rfl
  | cons p rest ih =>
    intro m
    rw [foldInsert_cons, ih, lastVal_cons]
    cases hr : lastVal rest k with
    | some v => rfl
    | none =>
      show getKey (insertPy m p.1 p.2) k = _
      rw [getKey_insertPy]
      by_cases hk : k = p.1
      · rw [if_pos hk, if_pos (beq_iff_eq.mpr hk.symm)]
      · rw [if_neg hk,
          if_neg (bool_ne_true (beq_false_of_ne (fun e => hk e.symm)))]

theorem dedupFrom_nodup (l : List String) :
    ∀ acc, acc.Nodup → (dedupFrom acc l).Nodup := by
  induction l with
  | nil => intro acc h; exact h
  | cons t rest ih =>
    intro acc h
    rw [dedupFrom_cons]
    by_cases ht : t ∈ acc
    · rw [if_pos ht]; exact ih acc h
    · rw [if_neg ht]
      refine ih (acc ++ [t]) ?_
      rw [List.nodup_append]
      exact ⟨h, List.nodup_singleton t, by
        intro a ha hb
        rw [List.mem_singleton] at hb
        exact ht (hb ▸ ha)⟩

theorem mem_dedupFrom (l : List String) :
    ∀ acc x, x ∈ dedupFrom acc l ↔ x ∈ acc ∨ x ∈ l := by
  induction l with
  | nil => intro acc x; simp [dedupFrom]
  | cons t rest ih =>
    intro acc x
    rw [dedupFrom_cons, ih]
    by_cases ht : t ∈ acc
    · rw [if_pos ht]
      constructor
      · rintro (h | h)
        · exact Or.inl h
        · exact Or.inr (List.mem_cons_of_mem t h)
      · rintro (h | h)
        · exact Or.inl h
        · rcases List.mem_cons.mp h with h | h
          · exact Or.inl (h ▸ ht)
          · exact Or.inr h
    · rw [if_neg ht]
      constructor
      · rintro (h | h)
        · rcases List.mem_append.mp h with h | h
          · exact Or.inl h
          · exact Or.inr (List.mem_cons.mpr (Or.inl (List.mem_singleton.mp h)))
        · exact Or.inr (List.mem_cons_of_mem t h)
      · rintro (h | h)
        · exact Or.inl (List.mem_append.mpr (Or.inl h))
        · rcases List.mem_cons.mp h with h | h
          · exact Or.inl (List.mem_append.mpr (Or.inr (List.mem_singleton.mpr h)))
          · exact Or.inr h

theorem dedupFrom_sublist (l : List String) :
    ∀ acc, ∃ r, dedupFrom acc l = acc ++ r ∧ r.Sublist l := by
  induction l with
  | nil =>
    intro acc
    exact ⟨[], by simp [dedupFrom], List.nil_sublist []⟩
  | cons t rest ih =>
    intro acc
    rw [dedupFrom_cons]
    by_cases ht : t ∈ acc
    · rw [if_pos ht]
      obtain ⟨r, hr, hs⟩ := ih acc
      exact ⟨r, hr, hs.cons t⟩
    · rw [if_neg ht]
      obtain ⟨r, hr, hs⟩ := ih (acc ++ [t])
      exact ⟨t :: r, by rw [hr, List.append_assoc]; rfl, hs.cons₂ t⟩

/-- The seen-set of the union scan tracks exactly the ordered output. -/
def goodState (st : List String × List String) : Prop :=
  ∀ t, t ∈ st.2 ↔ t ∈ st.1

theorem unionFold_fst (ks : List String) :
    ∀ st, goodState st →
      (unionFold st ks).1 = dedupFrom st.1 ks ∧ goodState (unionFold st ks) := by
  induction ks with
  | nil => intro st h; exact ⟨rfl, h⟩
  | cons t rest ih =>
    intro st h
    have hfold : unionFold st (t :: rest) = unionFold (unionStep st t) rest := rfl
    rw [hfold, dedupFrom_cons]
    by_cases ht : t ∈ st.2
    · have hstep : unionStep st t = st := by
        unfold unionStep
        rw [if_pos (List.elem_iff.mpr ht)]
      rw [hstep, if_pos ((h t).mp ht)]
      exact ih st h
    · have hstep : unionStep st t = (st.1 ++ [t], t :: st.2) := by
        unfold unionStep
        rw [if_neg (fun hc => ht (List.elem_iff.mp hc))]
      rw [hstep, if_neg (fun hm => ht ((h t).mpr hm))]
      refine ih (st.1 ++ [t], t :: st.2) ?_
      intro u
      show u ∈ t :: st.2 ↔ u ∈ st.1 ++ [t]
      rw [List.mem_cons, List.mem_append, List.mem_singleton, h u, or_comm]

theorem foldl_unionFold (items : List Item) :
    ∀ st, items.foldl (fun s it => unionFold s (traitKeys it)) st
      = unionFold st ((items.map traitKeys).flatten) := by
  induction items with
  | nil => intro st; rfl
  | cons it rest ih =>
    intro st
    rw [List.foldl_cons, ih, List.map_cons, List.flatten_cons]
    unfold unionFold
    rw [List.foldl_append]

theorem all_traits_order_eq (items : List Item) :
    all_traits_order items = dedupF ((items.map traitKeys).flatten) := by
  unfold all_traits_order dedupF
  rw [foldl_unionFold items ([], [])]
  exact (unionFold_fst _ ([], []) (fun t => Iff.rfl)).1

theorem traitStep_eq (m : List (String × JVal)) (a : JVal) :
    traitStep m a
      = match entryPair a with
        | some p => insertPy m p.1 p.2
        | none => m := by
  cases a with
  | jobj o =>
    cases hname : resolveTraitName o with
    | some t => simp [traitStep, entryPair, hname]
    | none => simp [traitStep, entryPair, hname]
  | jnull => rfl
  | jbool b => rfl
  | jint n => rfl
  | jstr s => rfl
  | jarr l2 => rfl

theorem resolvedPairs_cons (a : JVal) (rest : List JVal) :
    resolvedPairs (a :: rest)
      = match entryPair a with
        | some p => p :: resolvedPairs rest
        | none => resolvedPairs rest := by
  unfold resolvedPairs
  rw [List.filterMap_cons]
  cases entryPair a <;> rfl

theorem foldl_traitStep_eq (l : List JVal) :
    ∀ m, l.foldl traitStep m = foldInsert m (resolvedPairs l) := by
  induction l with
  | nil => intro m; rfl
  | cons a rest ih =>
    intro m
    rw [List.foldl_cons, traitStep_eq, resolvedPairs_cons]
    cases he : entryPair a with
    | some p =>
      simp only [he]
      rw [ih, foldInsert_cons]
    | none =>
      simp only [he]
      exact ih m

theorem extractTraits_eq_buildDict (l : List JVal) :
    extractTraits (.jarr l) = buildDict (resolvedPairs l) :=
  foldl_traitStep_eq l []

/-- A Normalized Item with given traits and defaults elsewhere, used for
concrete batches in examples. -/
def itemWithTraits (ts : List (String × JVal)) : Item :=
  { token_id := none, name := .jstr "", description := .jstr "", image := ""
    image_raw := .jstr "", external_url := .jstr "", animation_url := .jstr ""
    background_color := .jstr "", youtube_url := .jstr "", traits := ts
    stem := "s" }

/-- C2: for every sequence of Normalized Items the Trait Schema Unifier
returns the ordered de-duplicated union of all trait names — the first-seen
fold over the concatenation of the items' trait-name lists; the result has
no duplicates, contains exactly the names occurring in some item, is a
subsequence of the concatenation (so ordered by first occurrence, not
sorted), and on the batch `[JVal traits A=1; traits B=2, A=3]` it is
`[A, B]`; it is a function of the batch, hence deterministic, and the
reversed batch shows the order is first-seen rather than sorted. -/
theorem c2_trait_union (items : List Item) :
    all_traits_order items = dedupF ((items.map traitKeys).flatten)
    ∧ (all_traits_order items).Nodup
    ∧ (∀ t, t ∈ all_traits_order items ↔ ∃ it ∈ items, t ∈ traitKeys it)
    ∧ (all_traits_order items).Sublist ((items.map traitKeys).flatten)
    ∧ all_traits_order
        [itemWithTraits [("A", .jint 1)],
         itemWithTraits [("B", .jint 2), ("A", .jint 3)]] = ["A", "B"]
    ∧ all_traits_order
        [itemWithTraits [("B", .jint 2)], itemWithTraits [("A", .jint 1)]]
        = ["B", "A"] := by
  refine ⟨all_traits_order_eq items, ?_, ?_, ?_, rfl, rfl⟩
  · rw [all_traits_order_eq items]
    exact dedupFrom_nodup _ [] List.nodup_nil
  · intro t
    rw [all_traits_order_eq items]
    unfold dedupF
    rw [mem_dedupFrom]
    constructor
    · rintro (h | h)
      · cases h
      · obtain ⟨ks, hks, hkt⟩ := List.mem_flatten.mp h
        obtain ⟨it, hit, rfl⟩ := List.mem_map.mp hks
        exact ⟨it, hit, hkt⟩
    · rintro ⟨it, hit, ht⟩
      exact Or.inr (List.mem_flatten.mpr
        ⟨traitKeys it, List.mem_map.mpr ⟨it, hit, rfl⟩, ht⟩)
  · rw [all_traits_order_eq items]
    unfold dedupF
    obtain ⟨r, hr, hs⟩ := dedupFrom_sublist ((items.map traitKeys).flatten) []
    rw [hr]
    exact hs

/-- The attribute list with two entries carrying the same trait name and
different values, the duplicate-name scenario of claim C3. -/
def dupAttrs : JVal :=
  .jarr [.jobj [("trait_type", .jstr "A"), ("value", .jint 1)],
         .jobj [("trait_type", .jstr "A"), ("value", .jint 2)]]

/-- C3 counterexample: with duplicate `trait_type: A` entries valued 1 then
2, the built trait mapping binds A to the LAST value 2, not the first
occurrence value 1 that the claim asserts. -/
theorem c3_counterexample :
    (extractTraits dupAttrs).map (fun p => (p.1, pyStr p.2)) = [("A", "2")]
    ∧ ([("A", "2")] : List (String × String)) ≠ [("A", "1")] := by
  exact ⟨rfl, by decide⟩

/-- C3 amended: when a source attribute list contains multiple entries
resolving to the same trait name, the keys of the built trait mapping are
unique (Nodup) and ordered by FIRST occurrence (the first-seen
de-duplication of the resolved name sequence), but the value bound to a
name is the value of its LAST occurrence; on the concrete duplicate batch
the mapping is `A maps-to 2`. -/
theorem c3_last_occurrence_wins (l : List JVal) (k : String) :
    (extractTraits (.jarr l)).map Prod.fst
        = dedupF ((resolvedPairs l).map Prod.fst)
    ∧ getKey (extractTraits (.jarr l)) k = lastVal (resolvedPairs l) k
    ∧ ((extractTraits (.jarr l)).map Prod.fst).Nodup
    ∧ getKey (extractTraits dupAttrs) "A" = some (.jint 2) := by
  refine ⟨?_, ?_, ?_, rfl⟩
  · rw [extractTraits_eq_buildDict]
    unfold buildDict dedupF
    rw [foldInsert_map_fst]
    rfl
  · rw [extractTraits_eq_buildDict]
    unfold buildDict
    rw [foldInsert_getKey]
    cases lastVal (resolvedPairs l) k with
    | some v => rfl
    | none => rfl
  · rw [extractTraits_eq_buildDict]
    unfold buildDict
    rw [foldInsert_map_fst]
    exact dedupFrom_nodup _ [] List.nodup_nil

/-- Trait-name selection exactly as claim C4 words it: the value of the
first PRESENT key among trait_type, trait, type — presence, not
truthiness. -/
def traitNamePresence (o : List (String × JVal)) : Option String :=
  ([getKey o "trait_type", getKey o "trait", getKey o "type"].findSome?
    (fun v => v)).map pyStr

/-- The attribute fold under the presence-based reading of claim C4. -/
def traitStepPresence (m : List (String × JVal)) (a : JVal) :
    List (String × JVal) :=
  match a with
  | .jobj o =>
    match traitNamePresence o with
    | some t => insertPy m t ((getKey o "value").getD (.jstr ""))
    | none => m
  | _ => m

/-- Trait extraction under the presence-based reading of claim C4. -/
def extractTraitsPresence (atts : JVal) : List (String × JVal) :=
  match atts with
  | .jarr l => l.foldl traitStepPresence []
  | _ => []

/-- The attribute entry whose `trait_type` is present but falsy (empty
string) while `trait` holds a truthy name. -/
def falsyNameAttrs : JVal :=
  .jarr [.jobj [("trait_type", .jstr ""), ("trait", .jstr "B"),
                ("value", .jint 1)]]

/-- C4 counterexample: for an entry with `trait_type` PRESENT but equal to
the falsy empty string and `trait` equal to B, the claim's presence-based
rule names the trait by the empty string, but the code's `or` chain uses
truthiness and names it B. -/
theorem c4_counterexample :
    (extractTraits falsyNameAttrs).map Prod.fst = ["B"]
    ∧ (extractTraitsPresence falsyNameAttrs).map Prod.fst = [""]
    ∧ (["B"] : List String) ≠ [""] :=
  ⟨rfl, rfl, by decide⟩

/-- C4 amended: the trait name is the stringified first TRUTHY value among
trait_type, trait, type (an `x or y` chain filtered by `if t:`), so a
present-but-falsy candidate is passed over; entries in which all three
lookups are absent or falsy are skipped entirely (value discarded);
non-object entries are skipped; a kept entry's value defaults to the empty
string when its value key is absent.  The fold is the Python-dict build
over exactly the resolved (name, value) pairs. -/
theorem c4_truthy_first_name (l : List JVal) (n : Int) (s : String)
    (b : Bool) (l2 : List JVal) :
    extractTraits (.jarr l) = buildDict (resolvedPairs l)
    ∧ entryPair (.jint n) = none
    ∧ entryPair (.jstr s) = none
    ∧ entryPair (.jbool b) = none
    ∧ entryPair (.jarr l2) = none
    ∧ entryPair .jnull = none
    ∧ extractTraits (.jarr [.jstr "junk"]) = []
    ∧ extractTraits
        (.jarr [.jobj [("trait_type", .jstr ""), ("type", .jint 0),
                       ("value", .jint 9)]]) = []
    ∧ (extractTraits falsyNameAttrs).map (fun p => (p.1, pyStr p.2))
        = [("B", "1")]
    ∧ (extractTraits (.jarr [.jobj [("trait", .jstr "T")]])).map
        (fun p => (p.1, pyStr p.2)) = [("T", "")]
    ∧ (extractTraits (.jarr [.jobj [("type", .jint 5), ("value", .jint 2)]])).map
        (fun p => (p.1, pyStr p.2)) = [("5", "2")] :=
  ⟨extractTraits_eq_buildDict l, rfl, rfl, rfl, rfl, rfl, rfl, rfl, rfl,
   rfl, rfl⟩

theorem tokenIdLoop_eq_findSome (d : List (String × JVal)) :
    ∀ ks, tokenIdLoop d ks
      = ks.findSome? (fun k => (getKey d k).bind pyIntOfVal) := by
  intro ks
  induction ks with
  | nil => rfl
  | cons k rest ih =>
    rw [List.findSome?_cons]
    show (match getKey d k with
          | some v =>
            match pyIntOfVal v with
            | some n => some n
            | none => tokenIdLoop d rest
          | none => tokenIdLoop d rest) = _
    cases hk : getKey d k with
    | some v =>
      show (match pyIntOfVal v with
            | some n => some n
            | none => tokenIdLoop d rest) = _
      have hb : (some v).bind pyIntOfVal = pyIntOfVal v := rfl
      rw [hb]
      cases hv : pyIntOfVal v with
      | some n => rfl
      | none => exact ih
    | none => exact ih

/-- C5: json-mode id resolution returns the first present AND
integer-parseable value among token_id, edition, tokenId, id in that
order (a present but unparseable value is passed over); filename mode
takes the first run of decimal digits in the stem; auto mode prefers the
json id and falls back to the filename id.  In particular token_id: "7"
beats edition: 3 in json and auto mode, a document whose token_id does
not parse falls through to edition, and the digit-run extraction behaves
as in the examples. -/
theorem c5_id_resolution (d : List (String × JVal)) (tidFn tidJs : Option Int) :
    get_token_id_from_json d
      = tokenIdKeys.findSome? (fun k => (getKey d k).bind pyIntOfVal)
    ∧ resolveTokenId (some .json) tidFn tidJs = tidJs
    ∧ resolveTokenId (some .filename) tidFn tidJs = tidFn
    ∧ resolveTokenId none tidFn tidJs = tidJs.or tidFn
    ∧ get_token_id_from_json [("token_id", .jstr "7"), ("edition", .jint 3)]
        = some 7
    ∧ resolveTokenId none (some 99)
        (get_token_id_from_json [("token_id", .jstr "7"), ("edition", .jint 3)])
        = some 7
    ∧ get_token_id_from_json [("token_id", .jstr "x"), ("edition", .jint 3)]
        = some 3
    ∧ get_token_id_from_json [("name", .jstr "z")] = none
    ∧ guess_token_id_from_filename "ab12cd34" = some 12
    ∧ guess_token_id_from_filename "abc" = none := by
  refine ⟨tokenIdLoop_eq_findSome d tokenIdKeys, rfl, rfl, ?_, rfl, rfl, rfl,
    rfl, rfl, rfl⟩
  cases tidJs <;> rfl

/-- Image normalization exactly as claim C6 words it for string values: the
rewrite applies when a gateway prefix is configured and the value either
uses an ipfs scheme or does not start with an http(s) SCHEME; only a
leading `ipfs://` (and a following redundant `ipfs/` segment) is
stripped. -/
def normalizeImageClaim (s : String) (gw : Option String) : String :=
  match gw with
  | some p =>
    if strStartsWith s "ipfs://"
        || !(strStartsWith s "http://" || strStartsWith s "https://") then
      let rest := if strStartsWith s "ipfs://" then strDrop s 7 else s
      let rest := if strStartsWith rest "ipfs/" then strDrop rest 5 else rest
      rstripSlash p ++ "/" ++ lstripSlash rest
    else s
  | none => s

/-- C6 counterexample: the code tests the literal character prefix "http",
not an http(s) scheme.  The value `httpz://QmX` does not start with an
http(s) scheme, so the claim requires it to be rewritten under a configured
gateway, but the code passes it through unchanged because it starts with
the four characters `http`. -/
theorem c6_counterexample :
    normalize_image (.jstr "httpz://QmX") (some "https://ipfs.io/ipfs")
      = "httpz://QmX"
    ∧ normalizeImageClaim "httpz://QmX" (some "https://ipfs.io/ipfs")
      = "https://ipfs.io/ipfs/httpz://QmX"
    ∧ ("httpz://QmX" : String) ≠ "https://ipfs.io/ipfs/httpz://QmX" :=
  ⟨rfl, rfl, by decide⟩

/-- Image normalization as amended: the pass-through condition is "starts
with the literal text http" (so any string beginning with those four
characters, scheme or not, passes through unless it starts with ipfs://),
an empty configured prefix counts as unconfigured, and every occurrence of
the substring `ipfs://` is removed, not only a leading one. -/
def normalizeImageAmended (s : String) (gw : Option String) : String :=
  match gw with
  | some p =>
    if p != "" && (strStartsWith s "ipfs://" || !strStartsWith s "http") then
      let rest := pyReplace s "ipfs://" ""
      let rest := if strStartsWith rest "ipfs/" then strDrop rest 5 else rest
      rstripSlash p ++ "/" ++ lstripSlash rest
    else s
  | none => s

/-- C6 amended: for string image values the code computes exactly the
amended normalization (literal `http` prefix test; all `ipfs://`
occurrences removed; redundant leading `ipfs/` segment dropped; prefix
right-trimmed of slashes, path left-trimmed of slashes); non-string image
values normalize to the empty string; and both worked examples of the
claim hold, as does plain pass-through for genuine http(s) URLs and for an
unconfigured gateway. -/
theorem c6_image_normalization (s : String) (gw : Option String) (n : Int)
    (b : Bool) (l : List JVal) (m : List (String × JVal)) :
    normalize_image (.jstr s) gw = normalizeImageAmended s gw
    ∧ normalize_image .jnull gw = ""
    ∧ normalize_image (.jbool b) gw = ""
    ∧ normalize_image (.jint n) gw = ""
    ∧ normalize_image (.jarr l) gw = ""
    ∧ normalize_image (.jobj m) gw = ""
    ∧ normalize_image (.jstr s) none = s
    ∧ normalize_image (.jstr "ipfs://QmABC/1.png") (some "https://ipfs.io/ipfs")
        = "https://ipfs.io/ipfs/QmABC/1.png"
    ∧ normalize_image (.jstr "ipfs://ipfs/QmABC/1.png")
        (some "https://ipfs.io/ipfs") = "https://ipfs.io/ipfs/QmABC/1.png"
    ∧ normalize_image (.jstr "https://host/x.png") (some "https://ipfs.io/ipfs")
        = "https://host/x.png"
    ∧ normalize_image (.jstr "rel/path.png") (some "https://gw/")
        = "https://gw/rel/path.png" := by
  refine ⟨?_, rfl, rfl, rfl, rfl, rfl, rfl, rfl, rfl, rfl, rfl⟩
  cases gw with
  | none => rfl
  | some p => rfl

theorem lexLe_refl (p : Nat × Int) : lexLe p p :=
  Or.inr ⟨rfl, le_refl _⟩

theorem lexLe_total2 (p q : Nat × Int) : lexLe p q ∨ lexLe q p := by
  unfold lexLe; omega

theorem keyLe_of_not_keyLe {a b : Item} (h : ¬ keyLe a b) : keyLe b a :=
  (lexLe_total2 (sortKey b) (sortKey a)).resolve_right h

theorem sortKey_ne_of_not_keyLe {a b : Item} (h : ¬ keyLe a b) :
    sortKey b ≠ sortKey a := by
  intro he
  exact h (show lexLe (sortKey a) (sortKey b) by rw [he]; exact lexLe_refl _)

theorem orderedInsert_filter_key (k : Nat × Int) (x : Item) :
    ∀ l, List.Sorted keyLe l →
      (l.orderedInsert keyLe x).filter (fun y => decide (sortKey y = k))
        = if sortKey x = k
          then x :: l.filter (fun y => decide (sortKey y = k))
          else l.filter (fun y => decide (sortKey y = k)) := by
  intro l
  induction l with
  | nil =>
    intro _
    by_cases hx : sortKey x = k
    · rw [if_pos hx]
      simp [List.orderedInsert, List.filter, hx]
    · rw [if_neg hx]
      simp [List.orderedInsert, List.filter, hx]
  | cons y ys ih =>
    intro hs
    have hsy : List.Sorted keyLe ys := (List.sorted_cons.mp hs).2
    by_cases hxy : keyLe x y
    · rw [List.orderedInsert, if_pos hxy, List.filter_cons]
      by_cases hx : sortKey x = k
      · rw [if_pos (by simp [hx]), if_pos hx]
      · rw [if_neg (by simp [hx]), if_neg hx]
    · rw [List.orderedInsert, if_neg hxy, List.filter_cons, ih hsy,
        List.filter_cons]
      by_cases hx : sortKey x = k
      · have hyk : decide (sortKey y = k) = false := by
          simp
          intro he
          exact (sortKey_ne_of_not_keyLe hxy) (he.trans hx.symm)
        rw [if_pos hx, if_pos hx, hyk, if_neg Bool.false_ne_true,
          if_neg Bool.false_ne_true]
      · rw [if_neg hx, if_neg hx]

theorem insertionSort_filter_key (k : Nat × Int) :
    ∀ l : List Item,
      (l.insertionSort keyLe).filter (fun y => decide (sortKey y = k))
        = l.filter (fun y => decide (sortKey y = k)) := by
  intro l
  induction l with
  | nil => rfl
  | cons a l ih =>
    show ((l.insertionSort keyLe).orderedInsert keyLe a).filter _ = _
    rw [orderedInsert_filter_key k a _ (List.sorted_insertionSort keyLe _),
      List.filter_cons]
    by_cases hx : sortKey a = k
    · rw [if_pos hx, ih, if_pos (by simp [hx])]
    · rw [if_neg hx, ih, if_neg (by simp [hx])]

theorem none_after_some (l : List Item) (h : List.Sorted keyLe l) :
    List.Pairwise (fun a b => a.token_id = none → b.token_id = none) l := by
  refine h.imp ?_
  intro a b hab hnone
  cases hb : b.token_id with
  | none => rfl
  | some n =>
    exfalso
    unfold keyLe lexLe sortKey at hab
    rw [hnone, hb] at hab
    simp at hab

/-- A Normalized Item with a given token_id and defaults elsewhere. -/
def itemWithTid (tid : Option Int) : Item :=
  { itemWithTraits [] with token_id := tid }

/-- C7: with sorting enabled the aggregated order is a permutation of the
ingested items (so no item record changes, only positions), sorted by the
key (token_id is None, token_id): every item lacking an id comes after all
items that have one, equal keys keep their ingestion order (the filter by
any fixed key value is unchanged — stability), and ids `[None, 3, 1]` sort
to `[1, 3, None]`; with sorting disabled the ingestion order is kept. -/
theorem c7_aggregated_sort (items : List Item) (k : Nat × Int) :
    sortAgg false items = items
    ∧ (sortAgg true items).Perm items
    ∧ List.Sorted keyLe (sortAgg true items)
    ∧ List.Pairwise (fun a b => a.token_id = none → b.token_id = none)
        (sortAgg true items)
    ∧ (sortAgg true items).filter (fun it => decide (sortKey it = k))
        = items.filter (fun it => decide (sortKey it = k))
    ∧ (sortAgg true
          [itemWithTid none, itemWithTid (some 3),
           itemWithTid (some 1)]).map Item.token_id
        = [some 1, some 3, none] := by
  refine ⟨rfl, List.perm_insertionSort keyLe items,
    List.sorted_insertionSort keyLe items,
    none_after_some _ (List.sorted_insertionSort keyLe items),
    insertionSort_filter_key k items, by decide⟩

theorem projectRow_length (cfg : Config) (ord : List String) (it : Item)
    (row : List String) (h : projectRow cfg ord it = some row) :
    row.length = (base_cols cfg).length
      + (filename_col_name cfg).toList.length + ord.length := by
  unfold projectRow at h
  cases hf : filename_col_name cfg with
  | none =>
    rw [hf] at h
    injection h with h
    rw [← h]
    simp [List.length_append, List.length_map]
  | some s =>
    rw [hf] at h
    cases hr : render_filename_col cfg.tmpl it.token_id it.stem it.image_raw with
    | none => rw [hr] at h; cases h
    | some fn =>
      rw [hr] at h
      injection h with h
      rw [← h]
      simp [List.length_append, List.length_map]
      omega

theorem header_length (cfg : Config) (items : List Item) :
    (header cfg items).length = (base_cols cfg).length
      + (filename_col_name cfg).toList.length
      + (all_traits_order items).length := by
  unfold header
  simp [List.length_append]
  omega

theorem traitCell_missing (it : Item) (t : String)
    (h : it.traits.find? (fun p => p.1 == t) = none) :
    traitCell it t = "" := by
  unfold traitCell
  rw [h]
  rfl

theorem projectRow_trait_pos (cfg : Config) (ord : List String) (it : Item)
    (row : List String) (j : Nat) (h : projectRow cfg ord it = some row)
    (hj : j < ord.length) :
    row.getD ((base_cols cfg).length
        + (filename_col_name cfg).toList.length + j) "?"
      = traitCell it (ord.getD j "") := by
  have hmap : ∀ d, (ord.map (fun t => traitCell it t)).getD j d
      = traitCell it (ord.getD j "") := by
    intro d
    rw [List.getD_eq_getElem?_getD, List.getD_eq_getElem?_getD,
      List.getElem?_map, List.getElem?_eq_getElem hj]
    rfl
  unfold projectRow at h
  cases hf : filename_col_name cfg with
  | none =>
    rw [hf] at h
    injection h with h
    rw [← h]
    have hidx : (base_cols cfg).length
          + (Option.toList (α := String) none).length + j
        = (List.map (fun c => cellStr (itemField it c)) (base_cols cfg)).length
          + j := by
      simp [List.length_map]
    rw [hidx, List.getD_eq_getElem?_getD,
      List.getElem?_append_right (Nat.le_add_right _ _),
      Nat.add_sub_cancel_left, ← List.getD_eq_getElem?_getD]
    exact hmap "?"
  | some s =>
    rw [hf] at h
    cases hr : render_filename_col cfg.tmpl it.token_id it.stem it.image_raw with
    | none => rw [hr] at h; cases h
    | some fn =>
      rw [hr] at h
      injection h with h
      rw [← h]
      have hidx : (base_cols cfg).length
            + (Option.toList (α := String) (some s)).length + j
          = (List.map (fun c => cellStr (itemField it c))
              (base_cols cfg)).length + (1 + j) := by
        simp [List.length_map]
        omega
      rw [hidx, List.getD_eq_getElem?_getD,
        List.getElem?_append_right (Nat.le_add_right _ _),
        Nat.add_sub_cancel_left,
        List.getElem?_append_right (Nat.le_add_right 1 j),
        (show 1 + j - ([fn] : List String).length = j from by
          show 1 + j - 1 = j
          omega),
        ← List.getD_eq_getElem?_getD]
      exact hmap "?"

theorem projectRows_length_all (cfg : Config) (ord : List String) :
    ∀ (l : List Item) (rs : List (List String)),
      projectRows cfg ord l = some rs →
      rs.all (fun r => r.length == (base_cols cfg).length
        + (filename_col_name cfg).toList.length + ord.length) = true := by
  intro l
  induction l with
  | nil =>
    intro rs h
    injection h with h
    rw [← h]
    rfl
  | cons it rest ih =>
    intro rs h
    unfold projectRows at h
    cases hr : projectRow cfg ord it with
    | none => rw [hr] at h; cases h
    | some r =>
      rw [hr] at h
      cases hrest : projectRows cfg ord rest with
      | none => rw [hrest] at h; cases h
      | some rs2 =>
        rw [hrest] at h
        injection h with h
        rw [← h, List.all_cons]
        rw [ih rs2 hrest, beq_iff_eq.mpr
          (projectRow_length cfg ord it r hr), Bool.and_self]

/-- C1: the Unified Header is computed once per batch and used identically
by the per-item and the aggregated writers (both CSVs start with that same
header row when headers are on); every data row has exactly as many cells
as the header; and an item lacking the j-th unified trait gets the
empty-string cell at that trait's column position, never a shorter row. -/
theorem c1_header_uniform (cfg : Config) (items : List Item) (it : Item)
    (row : List String) (pcsv acsv : List (List String)) (j : Nat)
    (hrow : projectRow cfg (all_traits_order items) it = some row)
    (hp : per_file_csv cfg (all_traits_order items) (header cfg items) it
      = some pcsv)
    (ha : aggregated_csv cfg (all_traits_order items) (header cfg items) items
      = some acsv)
    (hH : cfg.noHeader = false)
    (hj : j < (all_traits_order items).length)
    (hmiss : it.traits.find?
      (fun p => p.1 == (all_traits_order items).getD j "") = none) :
    row.length = (header cfg items).length
    ∧ row.getD ((base_cols cfg).length
        + (filename_col_name cfg).toList.length + j) "?" = ""
    ∧ pcsv.head? = some (header cfg items)
    ∧ acsv.head? = some (header cfg items)
    ∧ pcsv.tail.all (fun r => r.length == (header cfg items).length) = true
    ∧ acsv.tail.all (fun r => r.length == (header cfg items).length) = true := by
  have hlen := projectRow_length cfg (all_traits_order items) it row hrow
  have hhl := header_length cfg items
  refine ⟨by omega, ?_, ?_, ?_, ?_, ?_⟩
  · rw [projectRow_trait_pos cfg (all_traits_order items) it row j hrow hj]
    exact traitCell_missing it _ hmiss
  · unfold per_file_csv at hp
    rw [hrow] at hp
    injection hp with hp
    rw [← hp, hH]
    rfl
  · unfold aggregated_csv at ha
    cases hrs : projectRows cfg (all_traits_order items)
        (sortAgg cfg.doSort items) with
    | none => rw [hrs] at ha; cases ha
    | some rs =>
      rw [hrs] at ha
      injection ha with ha
      rw [← ha, hH]
      rfl
  · unfold per_file_csv at hp
    rw [hrow] at hp
    injection hp with hp
    rw [← hp, hH]
    show ([row].all _) = true
    rw [List.all_cons]
    simp only [List.all_nil, Bool.and_true]
    rw [beq_iff_eq.mpr (by omega : row.length = (header cfg items).length)]
  · unfold aggregated_csv at ha
    cases hrs : projectRows cfg (all_traits_order items)
        (sortAgg cfg.doSort items) with
    | none => rw [hrs] at ha; cases ha
    | some rs =>
      rw [hrs] at ha
      injection ha with ha
      rw [← ha, hH]
      show rs.all _ = true
      have := projectRows_length_all cfg (all_traits_order items) _ rs hrs
      rw [hhl]
      exact this

/-- Concrete configuration for the C1 witness: default headers, the
token_id base column only, no filename column. -/
def cfgW : Config :=
  { onlyTraits := false, fields := some ["token_id"], filenameCol := none,
    tmpl := [], noHeader := false, doSort := true, gw := none }

/-- Concrete witness batch: first item has trait A only, second has B only. -/
def itemsW : List Item :=
  [itemWithTraits [("A", .jint 1)], itemWithTraits [("B", .jint 2)]]

/-- The first witness item, which lacks trait B. -/
def itW : Item := itemWithTraits [("A", .jint 1)]

/-- The row projected for the first witness item. -/
def rowW : List String := ["", "1", ""]

/-- The per-item CSV of the first witness item. -/
def pcsvW : List (List String) := [["token_id", "A", "B"], ["", "1", ""]]

/-- The aggregated CSV of the witness batch. -/
def acsvW : List (List String) :=
  [["token_id", "A", "B"], ["", "1", ""], ["", "", "2"]]

/-- Witness for C1 at a concrete batch: a two-item batch with disjoint
traits, evaluated end to end. -/
theorem c1_header_uniform_witness :
    projectRow cfgW (all_traits_order itemsW) itW = some rowW
    ∧ per_file_csv cfgW (all_traits_order itemsW) (header cfgW itemsW) itW
        = some pcsvW
    ∧ aggregated_csv cfgW (all_traits_order itemsW) (header cfgW itemsW) itemsW
        = some acsvW
    ∧ cfgW.noHeader = false
    ∧ 1 < (all_traits_order itemsW).length
    ∧ itW.traits.find? (fun p => p.1 == (all_traits_order itemsW).getD 1 "")
        = none
    ∧ (rowW.length = (header cfgW itemsW).length
       ∧ rowW.getD ((base_cols cfgW).length
           + (filename_col_name cfgW).toList.length + 1) "?" = ""
       ∧ pcsvW.head? = some (header cfgW itemsW)
       ∧ acsvW.head? = some (header cfgW itemsW)
       ∧ pcsvW.tail.all (fun r => r.length == (header cfgW itemsW).length)
           = true
       ∧ acsvW.tail.all (fun r => r.length == (header cfgW itemsW).length)
           = true) :=
  ⟨rfl, rfl, rfl, rfl, by decide, rfl,
   c1_header_uniform cfgW itemsW itW rowW pcsvW acsvW 1 rfl rfl rfl rfl
     (by decide) rfl⟩

/-- Total substitution semantics of a template: literals copied, supported
variables substituted. -/
def renderedAll (tid : Option Int) (stem : String) (img : JVal) :
    Template → String
  | [] => ""
  | .lit s :: t => s ++ renderedAll tid stem img t
  | .var v :: t => substVar tid stem img v ++ renderedAll tid stem img t

theorem str_append_empty (s : String) : s ++ "" = s :=
  congrArg String.mk (List.append_nil s.data)

theorem str_append_assoc (a b c : String) : a ++ b ++ c = a ++ (b ++ c) :=
  congrArg String.mk (List.append_assoc a.data b.data c.data)

theorem render_step_none (tid : Option Int) (stem : String) (img : JVal)
    (t : Template) :
    t.foldl
      (fun acc seg =>
        match acc, seg with
        | some s, .lit u => some (s ++ u)
        | some s, .var v =>
          if allowedVars.contains v then some (s ++ substVar tid stem img v)
          else none
        | none, _ => none)
      none = none := by
  induction t with
  | nil => rfl
  | cons seg rest ih =>
    rw [List.foldl_cons]
    cases seg with
    | lit u => exact ih
    | var v => exact ih

theorem render_foldl (tid : Option Int) (stem : String) (img : JVal)
    (t : Template) :
    ∀ acc : String,
      t.foldl
        (fun a seg =>
          match a, seg with
          | some s, .lit u => some (s ++ u)
          | some s, .var v =>
            if allowedVars.contains v then some (s ++ substVar tid stem img v)
            else none
          | none, _ => none)
        (some acc)
      = (if (tplVars t).all (fun v => allowedVars.contains v)
         then some (acc ++ renderedAll tid stem img t)
         else none) := by
  induction t with
  | nil =>
    intro acc
    show some acc = if true = true then some (acc ++ "") else none
    rw [if_pos rfl, str_append_empty]
  | cons seg rest ih =>
    intro acc
    rw [List.foldl_cons]
    cases seg with
    | lit u =>
      show List.foldl _ (some (acc ++ u)) rest = _
      rw [ih (acc ++ u)]
      by_cases hall : (tplVars rest).all (fun v => allowedVars.contains v) = true
      · rw [if_pos hall,
          if_pos (show (tplVars (.lit u :: rest)).all _ = true from hall),
          str_append_assoc]
        rfl
      · rw [if_neg hall,
          if_neg (show ¬ (tplVars (.lit u :: rest)).all
            (fun v => allowedVars.contains v) = true from hall)]
    | var v =>
      have hvars : tplVars (.var v :: rest) = v :: tplVars rest := rfl
      by_cases hv : allowedVars.contains v = true
      · show List.foldl _
            (if allowedVars.contains v
             then some (acc ++ substVar tid stem img v) else none) rest = _
        rw [if_pos hv, ih (acc ++ substVar tid stem img v), hvars,
          List.all_cons, hv, Bool.true_and]
        by_cases hall : (tplVars rest).all (fun v => allowedVars.contains v) = true
        · rw [if_pos hall, if_pos hall, str_append_assoc]
          rfl
        · rw [if_neg hall, if_neg hall]
      · show List.foldl _
            (if allowedVars.contains v
             then some (acc ++ substVar tid stem img v) else none) rest = _
        rw [if_neg hv, render_step_none, hvars, List.all_cons,
          Bool.of_not_eq_true hv, Bool.false_and,
          if_neg Bool.false_ne_true]

/-- C8: the Filename Renderer succeeds iff the template references only the
variables token_id, stem, image, image_name, image_ext, in which case the
output substitutes them (token_id as its decimal form, empty when absent;
image_ext defaulting to .png when the image basename has no extension); a
template referencing any other variable fails the formatting, which the
source does not catch.  Template token_id followed by ".png" yields "5.png"
for id 5 and ".png" when the id is absent. -/
theorem c8_filename_renderer (tmpl : Template) (tid : Option Int)
    (stem : String) (img : JVal) :
    render_filename_col tmpl tid stem img
      = (if (tplVars tmpl).all (fun v => allowedVars.contains v)
         then some (renderedAll tid stem img tmpl)
         else none)
    ∧ render_filename_col [.var "token_id", .lit ".png"] (some 5) "s"
        (.jstr "") = some "5.png"
    ∧ render_filename_col [.var "token_id", .lit ".png"] none "s"
        (.jstr "") = some ".png"
    ∧ render_filename_col [.var "serial", .lit ".png"] (some 5) "s"
        (.jstr "") = none
    ∧ render_filename_col [.var "stem"] (some 5) "thestem" (.jstr "")
        = some "thestem"
    ∧ render_filename_col [.var "image_name"] none "s"
        (.jstr "http://h/a/pic.gif") = some "pic.gif"
    ∧ render_filename_col [.var "image_ext"] none "s"
        (.jstr "http://h/a/pic.gif") = some ".gif"
    ∧ render_filename_col [.var "image_ext"] none "s" (.jstr "http://h/a/pic")
        = some ".png"
    ∧ render_filename_col [.var "image"] none "s" (.jint 0) = some "" := by
  refine ⟨?_, by decide, by decide, rfl, by decide, by decide, by decide,
    by decide, rfl⟩
  show List.foldl _ (some "") tmpl = _
  rw [render_foldl tid stem img tmpl ""]
  by_cases hall : (tplVars tmpl).all (fun v => allowedVars.contains v) = true
  · rw [if_pos hall, if_pos hall]
    show some ("" ++ _) = _
    rfl
  · rw [if_neg hall, if_neg hall]

/-- C9: in folder mode a document that fails to parse affects only itself —
inserting a failing file anywhere in the batch leaves the ingested item
list unchanged and raises the warning count by exactly one (siblings before
and after are processed normally) — while in aggregated mode an unparseable
top-level document makes the whole run fail with an error before any
aggregated CSV is produced. -/
theorem c9_parse_failure_modes (pre post : List (String × Option JVal))
    (nm : String) (idFrom : Option IdFrom) (gw : Option String)
    (cfg : Config) :
    (folderIngest idFrom gw (pre ++ (nm, none) :: post)).1
        = (folderIngest idFrom gw (pre ++ post)).1
    ∧ (folderIngest idFrom gw (pre ++ (nm, none) :: post)).2
        = (folderIngest idFrom gw (pre ++ post)).2 + 1
    ∧ load_metadata_file none gw = .error "json parse error"
    ∧ run_metadata_mode none cfg = .error "json parse error" := by
  have hcons : ∀ (nm2 : String) (doc : Option JVal)
      (rest : List (String × Option JVal)),
      folderIngest idFrom gw ((nm2, doc) :: rest)
        = match doc.bind (fun d => parse_json_file nm2 d idFrom gw) with
          | some it => ((nm2, it) :: (folderIngest idFrom gw rest).1,
                        (folderIngest idFrom gw rest).2)
          | none => ((folderIngest idFrom gw rest).1,
                     (folderIngest idFrom gw rest).2 + 1) :=
    fun _ _ _ => rfl
  have key : ∀ l : List (String × Option JVal),
      (folderIngest idFrom gw (l ++ (nm, none) :: post)).1
          = (folderIngest idFrom gw (l ++ post)).1
      ∧ (folderIngest idFrom gw (l ++ (nm, none) :: post)).2
          = (folderIngest idFrom gw (l ++ post)).2 + 1 := by
    intro l
    induction l with
    | nil =>
      rw [List.nil_append, List.nil_append, hcons]
      exact ⟨rfl, rfl⟩
    | cons f rest ih =>
      obtain ⟨ih1, ih2⟩ := ih
      obtain ⟨f1, f2⟩ := f
      rw [List.cons_append, List.cons_append, hcons, hcons]
      cases f2.bind (fun d => parse_json_file f1 d idFrom gw) with
      | some it => exact ⟨congrArg (List.cons (f1, it)) ih1, ih2⟩
      | none => exact ⟨ih1, congrArg (fun n => n + 1) ih2⟩
  exact ⟨(key pre).1, (key pre).2, rfl, rfl⟩

/-- The gap example for C10: the second of three top-level list entries is
not a JSON object. -/
def gapList : List JVal :=
  [.jobj [("name", .jstr "a")], .jint 5, .jobj [("name", .jstr "b")]]

/-- The gap example for the dict branch of C10: the second of three
top-level dict values is not a JSON object. -/
def gapDict : List (String × JVal) :=
  [("a", .jobj [("name", .jstr "x")]), ("b", .jint 5),
   ("c", .jobj [("name", .jstr "y")])]

/-- C10: in aggregated mode, non-object entries of the top-level list — and
likewise non-object VALUES of a top-level dict — are dropped with no output
row and no error (each loader is exactly the filterMap over its input that
keeps object entries), while each retained list item's stem is the decimal
form of its original 1-based position — so dropped entries leave gaps in
the stems and the row count can be smaller than the input length, as on the
concrete three-entry list with a non-object in the middle: stems [1, 3] and
2 < 3 rows; the three-entry dict with a non-object middle value likewise
keeps only the rows stemmed a and c. -/
theorem c10_silent_drop_positional_stems (l : List JVal) (gw : Option String)
    (i : Nat) (kvs : List (String × JVal)) :
    loadList gw i l
        = (List.enumFrom i l).filterMap
            (fun p =>
              match p.2 with
              | .jobj o => some (normalize_one o (natToString p.1) gw)
              | _ => none)
    ∧ (loadList gw i l).length ≤ l.length
    ∧ load_metadata_file (some (.jarr l)) gw = .ok (loadList gw 1 l)
    ∧ (loadList gw 1 gapList).map Item.stem = ["1", "3"]
    ∧ (loadList gw 1 gapList).length < gapList.length
    ∧ loadDict gw kvs
        = kvs.filterMap
            (fun p =>
              match p.2 with
              | .jobj o => some (normalize_one (dictKeyInject p.1 o) p.1 gw)
              | _ => none)
    ∧ (loadDict gw kvs).length ≤ kvs.length
    ∧ load_metadata_file (some (.jobj kvs)) gw = .ok (loadDict gw kvs)
    ∧ (loadDict gw gapDict).map Item.stem = ["a", "c"]
    ∧ (loadDict gw gapDict).length < gapDict.length := by
  have key : ∀ (l2 : List JVal) (i2 : Nat),
      loadList gw i2 l2
        = (List.enumFrom i2 l2).filterMap
            (fun p =>
              match p.2 with
              | .jobj o => some (normalize_one o (natToString p.1) gw)
              | _ => none) := by
    intro l2
    induction l2 with
    | nil => intro i2; rfl
    | cons v rest ih =>
      intro i2
      rw [List.enumFrom_cons, List.filterMap_cons]
      cases v with
      | jobj o =>
        show normalize_one o (natToString i2) gw :: loadList gw (i2 + 1) rest = _
        rw [ih (i2 + 1)]
      | jnull => exact ih (i2 + 1)
      | jbool b => exact ih (i2 + 1)
      | jint n => exact ih (i2 + 1)
      | jstr s => exact ih (i2 + 1)
      | jarr l3 => exact ih (i2 + 1)
  have hlen : ∀ (l2 : List JVal) (i2 : Nat),
      (loadList gw i2 l2).length ≤ l2.length := by
    intro l2
    induction l2 with
    | nil => intro i2; exact Nat.le_refl 0
    | cons v rest ih =>
      intro i2
      cases v with
      | jobj o =>
        show (normalize_one o (natToString i2) gw
          :: loadList gw (i2 + 1) rest).length ≤ rest.length + 1
        rw [List.length_cons]
        exact Nat.succ_le_succ (ih (i2 + 1))
      | jnull => exact Nat.le_succ_of_le (ih (i2 + 1))
      | jbool b => exact Nat.le_succ_of_le (ih (i2 + 1))
      | jint n => exact Nat.le_succ_of_le (ih (i2 + 1))
      | jstr s => exact Nat.le_succ_of_le (ih (i2 + 1))
      | jarr l3 => exact Nat.le_succ_of_le (ih (i2 + 1))
  have keyD : ∀ kvs2 : List (String × JVal),
      loadDict gw kvs2
        = kvs2.filterMap
            (fun p =>
              match p.2 with
              | .jobj o => some (normalize_one (dictKeyInject p.1 o) p.1 gw)
              | _ => none) := by
    intro kvs2
    induction kvs2 with
    | nil => rfl
    | cons p rest ih =>
      obtain ⟨k, v⟩ := p
      rw [List.filterMap_cons]
      cases v with
      | jobj o =>
        show normalize_one (dictKeyInject k o) k gw :: loadDict gw rest = _
        rw [ih]
      | jnull => exact ih
      | jbool b => exact ih
      | jint n => exact ih
      | jstr s => exact ih
      | jarr l3 => exact ih
  have hlenD : ∀ kvs2 : List (String × JVal),
      (loadDict gw kvs2).length ≤ kvs2.length := by
    intro kvs2
    induction kvs2 with
    | nil => exact Nat.le_refl 0
    | cons p rest ih =>
      obtain ⟨k, v⟩ := p
      cases v with
      | jobj o =>
        show (normalize_one (dictKeyInject k o) k gw
          :: loadDict gw rest).length ≤ rest.length + 1
        rw [List.length_cons]
        exact Nat.succ_le_succ ih
      | jnull => exact Nat.le_succ_of_le ih
      | jbool b => exact Nat.le_succ_of_le ih
      | jint n => exact Nat.le_succ_of_le ih
      | jstr s => exact Nat.le_succ_of_le ih
      | jarr l3 => exact Nat.le_succ_of_le ih
  refine ⟨key l i, hlen l i, rfl, rfl, ?_, keyD kvs, hlenD kvs, rfl, rfl, ?_⟩
  · show (2 : Nat) < 3
    decide
  · show (2 : Nat) < 3
    decide

end JsonToCsvNft
